import Mathlib

/-!
Verification development for the FHIR Data Converter & Analyst front end.

The TypeScript sources are embedded shallowly:

* JavaScript strings are modelled as `List Char`.
* `fetch` is modelled by an oracle value of type `FetchOutcome`: either the
  promise rejects with a `TypeError` (network/CORS failure) or it resolves to a
  `FetchResponse`.  Per the wire contract, a well-formed success body is JSON
  with an optional `response` text field and an optional `error` text field;
  those two fields are carried directly on `FetchResponse`.
* JavaScript exceptions are modelled with `Except JsError`.
* React `useState` component state is modelled by the record `Session`; each
  event handler of `App.tsx` becomes a function from the pre-state (plus the
  awaited result of the service call it performs) to the post-state.
-/

deriving instance DecidableEq for Except

namespace FhirAnalyst

/-- Whitespace recognised by the JSON grammar (`JSON.parse`): space, tab,
line feed, carriage return. -/
def isJsonWs (c : Char) : Bool :=
  c = ' ' || c = '\t' || c = '\n' || c = '\r'

/-- WhiteSpace/LineTerminator set of JavaScript, as used by `String.prototype.trim`
and by the regex class `\s`. -/
def isJsWs (c : Char) : Bool :=
  c.val = 9 || c.val = 10 || c.val = 11 || c.val = 12 || c.val = 13 || c.val = 32 ||
  c.val = 0xa0 || c.val = 0x1680 || (0x2000 ≤ c.val && c.val ≤ 0x200a) ||
  c.val = 0x2028 || c.val = 0x2029 || c.val = 0x202f || c.val = 0x205f ||
  c.val = 0x3000 || c.val = 0xfeff

/-- `String.prototype.trim`. -/
def jsTrim (s : List Char) : List Char :=
  ((s.dropWhile isJsWs).reverse.dropWhile isJsWs).reverse

/-- `String.prototype.indexOf` for a single character (`-1` when absent). -/
def firstIdx (c : Char) : List Char → Int
  | [] => -1
  | d :: rest =>
    if d = c then 0
    else if firstIdx c rest = -1 then -1 else firstIdx c rest + 1

/-- `String.prototype.lastIndexOf` for a single character (`-1` when absent). -/
def lastIdx (c : Char) : List Char → Int
  | [] => -1
  | d :: rest =>
    if lastIdx c rest = -1 then (if d = c then 0 else -1)
    else lastIdx c rest + 1

/-- Clamp a `substring` argument into `[0, length]`. -/
def clampIdx (s : List Char) (a : Int) : Nat :=
  (max 0 (min a (s.length : Int))).toNat

/-- `String.prototype.substring`: arguments are clamped into `[0, length]` and
swapped when given in decreasing order. -/
def jsSubstring (s : List Char) (a b : Int) : List Char :=
  (s.take (max (clampIdx s a) (clampIdx s b))).drop (min (clampIdx s a) (clampIdx s b))

/-- Index of the first occurrence of `p` as a contiguous substring. -/
def findSubIdx (p : List Char) : List Char → Option Nat
  | [] => if p.isPrefixOf ([] : List Char) then some 0 else none
  | c :: rest =>
    if p.isPrefixOf (c :: rest) then some 0
    else (findSubIdx p rest).map (fun n => n + 1)

/-- Whether `p` occurs as a contiguous substring. -/
def containsSub (p : List Char) : List Char → Bool
  | [] => p.isPrefixOf ([] : List Char)
  | c :: rest => p.isPrefixOf (c :: rest) || containsSub p rest

/-- The literal `"```json"` that opens a fenced block. -/
def fenceOpen : List Char := "```json".toList

/-- The literal `"```"` that closes a fenced block. -/
def fenceClose : List Char := "```".toList

/--
The regex `/```json\s*([\s\S]*?)\s*```/` of `cleanJsonOutput`, modelled by its
observable behaviour: the match starts at the leftmost occurrence of
`"```json"` that is followed (at or after the end of that literal) by a
closing `"```"`; the closing fence is the earliest such occurrence; and the
captured group is the text strictly between the two literals with the leading
and trailing whitespace runs stripped (those runs are consumed by the two
`\s*` that surround the lazy group).  Returns the captured group (`match[1]`).
-/
def fencedCapture : List Char → Option (List Char)
  | [] => none
  | c :: rest =>
    if fenceOpen.isPrefixOf (c :: rest) then
      match findSubIdx fenceClose ((c :: rest).drop 7) with
      | some b => some (jsTrim (((c :: rest).drop 7).take b))
      | none => fencedCapture rest
    else fencedCapture rest

/-- `OllamaErrorDetails`-bearing classified errors thrown by the service layer,
together with plain `Error`/`TypeError` values.  `jsError` is a plain `Error`
carrying its `message`; `typeError` is a JavaScript `TypeError`. -/
inductive JsError : Type
  | corsError : JsError
  | serverError : List Char → JsError
  | typeError : List Char → JsError
  | jsError : List Char → JsError
deriving DecidableEq, Repr

/-- Message template installed by the `OllamaServerError` constructor
(`this.message` is rebuilt around the `message` argument). -/
def ollamaServerErrorMessage (details : List Char) : List Char :=
  "The Ollama server responded with an error.\n\nDetails: ".toList ++ details ++
  "\n\nThis usually means the model had an issue processing the request. This can happen with very large or complex files. Please try a different file or check your Ollama server logs for more information.".toList

/-- Message installed by the `OllamaCorsError` constructor. -/
def ollamaCorsErrorMessage : List Char :=
  "Could not connect to the Ollama server at http://localhost:11434.".toList

/-- The `message` property of a thrown error. -/
def jsMessage : JsError → List Char
  | .corsError => ollamaCorsErrorMessage
  | .serverError d => ollamaServerErrorMessage d
  | .typeError m => m
  | .jsError m => m

/-- The network round trip of a single `fetch` call: either the promise
rejects with a `TypeError` (connection-level failure, e.g. CORS), or a
response arrives. -/
structure FetchResponse : Type where
  ok : Bool
  status : Nat
  statusText : List Char
  /-- The `response` field of the JSON body, when present. -/
  bodyResponse : Option (List Char)
  /-- The `error` field of the JSON body, when present. -/
  bodyError : Option (List Char)
deriving DecidableEq, Repr

/-- Oracle for one `fetch` invocation. -/
inductive FetchOutcome : Type
  | failure : FetchOutcome
  | success : FetchResponse → FetchOutcome
deriving DecidableEq, Repr

/-- `` `${response.status} ${response.statusText}` ``. -/
def statusLine (r : FetchResponse) : List Char :=
  (Nat.repr r.status).toList ++ ' ' :: r.statusText

/--
The `try` block of `callOllama` (geminiService.ts lines 90-110).  The POST
itself is the oracle.  On a non-ok status the code throws `OllamaServerError`.
On an ok status line 105 executes `await response?.trim()`: the `Response`
object has no `trim` method, so this member call raises a `TypeError` before
the body is ever read, and lines 106-110 are unreachable.
-/
def callOllamaTry (outcome : FetchOutcome) : Except JsError (List Char) :=
  match outcome with
  | .failure => .error (.typeError "Failed to fetch".toList)
  | .success r =>
    if r.ok = false then
      .error (.serverError (statusLine r))
    else
      .error (.typeError "response.trim is not a function".toList)

/-- The `catch` block of `callOllama` (lines 112-122): `OllamaServerError` is
rethrown, a `TypeError` becomes `OllamaCorsError`, anything else is rethrown. -/
def callOllamaCatch : JsError → JsError
  | .serverError m => .serverError m
  | .typeError _ => .corsError
  | e => e

/-- `callOllama` (geminiService.ts lines 89-123), as written. -/
def callOllama (outcome : FetchOutcome) : Except JsError (List Char) :=
  match callOllamaTry outcome with
  | .ok v => .ok v
  | .error e => .error (callOllamaCatch e)

/--
The `try` block of `callOllama` with the body handling that section 9 of the
design notes identifies as the intended behaviour of line 105: read the
response body as JSON, throw `OllamaServerError` when it carries an `error`
field, and otherwise return `result.response?.trim() || ""`.
-/
def callOllamaFixedTry (outcome : FetchOutcome) : Except JsError (List Char) :=
  match outcome with
  | .failure => .error (.typeError "Failed to fetch".toList)
  | .success r =>
    if r.ok = false then
      .error (.serverError (statusLine r))
    else
      match r.bodyError with
      | some e => .error (.serverError ("Ollama API Error: ".toList ++ e))
      | none => .ok (jsTrim (r.bodyResponse.getD []))

/-- `callOllama` with the line-105 defect repaired as the design notes intend. -/
def callOllamaFixed (outcome : FetchOutcome) : Except JsError (List Char) :=
  match callOllamaFixedTry outcome with
  | .ok v => .ok v
  | .error e => .error (callOllamaCatch e)

/-- Error thrown by line 142 of geminiService.ts. -/
def noJsonFoundMsg : List Char := "No JSON object found in the AI response.".toList

/-- Error thrown by line 154 of geminiService.ts. -/
def noValidStructureMsg : List Char := "Valid JSON structure not found in the AI response.".toList

/-- The bracket-locating fallback of `cleanJsonOutput` (lines 136-157). -/
def bracketExtract (rawJson : List Char) : Except JsError (List Char) :=
  let firstBracket := firstIdx '{' rawJson
  let firstSquare := firstIdx '[' rawJson
  if firstBracket = -1 ∧ firstSquare = -1 then
    .error (.jsError noJsonFoundMsg)
  else
    let start :=
      if firstBracket = -1 then firstSquare
      else if firstSquare = -1 then firstBracket
      else min firstBracket firstSquare
    let lastBracket := lastIdx '}' rawJson
    let lastSquare := lastIdx ']' rawJson
    let endPos := max lastBracket lastSquare
    if start = -1 ∨ endPos = -1 then
      .error (.jsError noValidStructureMsg)
    else
      .ok (jsSubstring rawJson start (endPos + 1))

/-- `cleanJsonOutput` (geminiService.ts lines 130-158).  The fenced branch is
taken when the regex matches and `match[1]` is truthy, i.e. the captured group
is nonempty; the code then returns `match[1].trim()`. -/
def cleanJsonOutput (rawJson : List Char) : Except JsError (List Char) :=
  match fencedCapture rawJson with
  | some cap => if cap ≠ [] then .ok (jsTrim cap) else bracketExtract rawJson
  | none => bracketExtract rawJson

/-! ### `JSON.parse`, as a syntax checker

`JSON.parse(text)` succeeds exactly when `text` derives the ECMA-404 grammar.
The recognisers below consume a prefix and return the remaining characters;
recursion through nested values is paid for by a fuel parameter that every
call decreases, with `jsonOk` supplying more fuel than any input can use. -/

/-- Skip JSON whitespace. -/
def skipWs (s : List Char) : List Char := s.dropWhile isJsonWs

/-- Require the literal characters `p` at the front. -/
def expectChars (p : List Char) (s : List Char) : Option (List Char) :=
  if p.isPrefixOf s then some (s.drop p.length) else none

/-- One or more decimal digits, consuming the maximal run. -/
def pDigits1 (s : List Char) : Option (List Char) :=
  match s with
  | [] => none
  | c :: r => if c.isDigit then some (r.dropWhile Char.isDigit) else none

/-- Optional exponent part: `[eE][+-]?[0-9]+`. -/
def pExpPart (s : List Char) : Option (List Char) :=
  match s with
  | [] => some []
  | c :: r =>
    if c = 'e' || c = 'E' then
      match r with
      | [] => none
      | c2 :: r2 => if c2 = '+' || c2 = '-' then pDigits1 r2 else pDigits1 (c2 :: r2)
    else some (c :: r)

/-- Optional fraction part `.[0-9]+` followed by the optional exponent. -/
def pFracExp (s : List Char) : Option (List Char) :=
  match s with
  | [] => pExpPart []
  | c :: r =>
    if c = '.' then
      match pDigits1 r with
      | some r2 => pExpPart r2
      | none => none
    else pExpPart (c :: r)

/-- Integer part after the optional sign: `0` or `[1-9][0-9]*`, then
fraction/exponent. -/
def pIntRest (s : List Char) : Option (List Char) :=
  match s with
  | [] => none
  | c :: r =>
    if c = '0' then pFracExp r
    else if c.isDigit then pFracExp (r.dropWhile Char.isDigit)
    else none

/-- JSON number. -/
def pNumber (s : List Char) : Option (List Char) :=
  match s with
  | [] => pIntRest []
  | c :: r => if c = '-' then pIntRest r else pIntRest (c :: r)

/-- Hexadecimal digit. -/
def isHexDigit (c : Char) : Bool :=
  c.isDigit || ('a' ≤ c && c ≤ 'f') || ('A' ≤ c && c ≤ 'F')

/-- Body of a JSON string after the opening quote, up to and including the
closing quote. -/
def pStringRest (s : List Char) : Option (List Char) :=
  match s with
  | [] => none
  | c :: r =>
    if c = '"' then some r
    else if c = '\\' then
      match r with
      | [] => none
      | e :: r2 =>
        if e = '"' || e = '\\' || e = '/' || e = 'b' || e = 'f' ||
           e = 'n' || e = 'r' || e = 't' then pStringRest r2
        else if e = 'u' then
          match r2 with
          | a :: b :: c2 :: d :: r3 =>
            if isHexDigit a && isHexDigit b && isHexDigit c2 && isHexDigit d
            then pStringRest r3 else none
          | _ => none
        else none
    else if c.val ≥ 0x20 then pStringRest r else none

mutual

/-- JSON value (assumes leading whitespace already skipped). -/
def pValue (fuel : Nat) (s : List Char) : Option (List Char) :=
  match fuel with
  | 0 => none
  | fuel + 1 =>
    match s with
    | [] => none
    | c :: rest =>
      if c = '{' then pObject fuel (skipWs rest)
      else if c = '[' then pArray fuel (skipWs rest)
      else if c = '"' then pStringRest rest
      else if c = 't' then expectChars ['r', 'u', 'e'] rest
      else if c = 'f' then expectChars ['a', 'l', 's', 'e'] rest
      else if c = 'n' then expectChars ['u', 'l', 'l'] rest
      else if c = '-' || c.isDigit then pNumber (c :: rest)
      else none

/-- Object body after `{` and whitespace. -/
def pObject (fuel : Nat) (s : List Char) : Option (List Char) :=
  match fuel with
  | 0 => none
  | fuel + 1 =>
    match s with
    | [] => none
    | c :: rest => if c = '}' then some rest else pMember fuel (c :: rest)

/-- One `"key" : value` member followed by `}` or by `,` and further members. -/
def pMember (fuel : Nat) (s : List Char) : Option (List Char) :=
  match fuel with
  | 0 => none
  | fuel + 1 =>
    match s with
    | [] => none
    | c :: rest =>
      if c = '"' then
        match pStringRest rest with
        | none => none
        | some r1 =>
          match skipWs r1 with
          | [] => none
          | c2 :: r2 =>
            if c2 = ':' then
              match pValue fuel (skipWs r2) with
              | none => none
              | some r3 =>
                match skipWs r3 with
                | [] => none
                | c3 :: r4 =>
                  if c3 = '}' then some r4
                  else if c3 = ',' then pMember fuel (skipWs r4)
                  else none
            else none
      else none

/-- Array body after `[` and whitespace. -/
def pArray (fuel : Nat) (s : List Char) : Option (List Char) :=
  match fuel with
  | 0 => none
  | fuel + 1 =>
    match s with
    | [] => none
    | c :: rest => if c = ']' then some rest else pElem fuel (c :: rest)

/-- One array element followed by `]` or by `,` and further elements. -/
def pElem (fuel : Nat) (s : List Char) : Option (List Char) :=
  match fuel with
  | 0 => none
  | fuel + 1 =>
    match pValue fuel s with
    | none => none
    | some r1 =>
      match skipWs r1 with
      | [] => none
      | c2 :: r2 =>
        if c2 = ']' then some r2
        else if c2 = ',' then pElem fuel (skipWs r2)
        else none

end

/-- `JSON.parse(s)` succeeds: a value derivable from the JSON grammar with
nothing but whitespace around it. -/
def jsonOk (s : List Char) : Bool :=
  match pValue (3 * s.length + 4) (skipWs s) with
  | some rest => (skipWs rest).isEmpty
  | none => false

/-- The first character after leading JSON whitespace is `{` or `[`: the
JSON text's top-level value is an object or an array. -/
def startsWithBracket (s : List Char) : Bool :=
  match skipWs s with
  | [] => false
  | c :: _ => c = '{' || c = '['

/-! ### The conversion pipeline -/

/-- Error text of the `SyntaxError` that `JSON.parse` throws on unparsable
text (the exact wording is engine-dependent). -/
def jsonSyntaxErrorMsg : List Char := "Unexpected token in JSON".toList

/-- The `catch` classification of `convertToFhir` (lines 183-186):
`OllamaCorsError` and `OllamaServerError` are rethrown, anything else is
wrapped in a fresh generic `Error`. -/
def convertCatch : JsError → JsError
  | .corsError => .corsError
  | .serverError m => .serverError m
  | e => .jsError ("The AI model failed to generate a valid FHIR resource. Details: ".toList ++ jsMessage e)

/-- Lines 179-186 of `convertToFhir`, applied to the awaited result of
`callOllama`: clean the raw response, validate it with `JSON.parse`, and
return the cleaned text. -/
def convertPost (gw : Except JsError (List Char)) : Except JsError (List Char) :=
  match gw with
  | .error e => .error (convertCatch e)
  | .ok rawResponse =>
    match cleanJsonOutput rawResponse with
    | .error e => .error (convertCatch e)
    | .ok cleanedJson =>
      if jsonOk cleanedJson then .ok cleanedJson
      else .error (convertCatch (.jsError jsonSyntaxErrorMsg))

/-- `convertToFhir` (geminiService.ts lines 163-187).  The prompt is built
from the file content; the remote model's reply is abstracted by the
`FetchOutcome` oracle. -/
def convertToFhir (outcome : FetchOutcome) : Except JsError (List Char) :=
  convertPost (callOllama outcome)

/-- `convertToFhir` with the design notes' repair of line 105 applied to the
gateway. -/
def convertToFhirFixed (outcome : FetchOutcome) : Except JsError (List Char) :=
  convertPost (callOllamaFixed outcome)

/-! ### Q&A prompt construction -/

/-- `ChatMessage.sender`. -/
inductive Sender : Type
  | user : Sender
  | bot : Sender
deriving DecidableEq, Repr

/-- `ChatMessage` of types.ts. -/
structure ChatMessage : Type where
  sender : Sender
  text : List Char
deriving DecidableEq, Repr

/-- String interpolation of a sender value. -/
def senderLabel : Sender → List Char
  | .user => "user".toList
  | .bot => "bot".toList

/-- `` `${msg.sender}: ${msg.text}` ``. -/
def turnLine (msg : ChatMessage) : List Char :=
  senderLabel msg.sender ++ ": ".toList ++ msg.text

/-- `history.map(msg => ...).join('\n')`. -/
def joinTurns (history : List ChatMessage) : List Char :=
  match history with
  | [] => []
  | [m] => turnLine m
  | m :: rest => turnLine m ++ '\n' :: joinTurns rest

/-- Template text of the `answerQuestion` prompt before the FHIR data. -/
def answerPromptHead : List Char :=
  "\n    You are a helpful AI assistant providing information from a patient\x27s FHIR electronic health record.\n    Your role is to answer the user\x27s question based ONLY on the provided FHIR data below.\n    Do not invent or infer information that is not explicitly present in the record.\n    If the answer cannot be found in the provided data, you must state that the information is not available in the patient\x27s record.\n    Keep your answers concise and directly related to the question.\n    \n    --- PATIENT FHIR DATA ---\n    ".toList

/-- Template text between the FHIR data and the previous conversation. -/
def answerPromptMid : List Char :=
  "\n    --- END OF DATA ---\n    \n    --- PREVIOUS CONVERSATION ---\n    ".toList

/-- Template text between the previous conversation and the user question. -/
def answerPromptQ : List Char :=
  "\n    --- END OF CONVERSATION ---\n\n    --- USER QUESTION ---\n    user: ".toList

/-- Template text after the user question. -/
def answerPromptTail : List Char :=
  "\n    --- END OF QUESTION ---\n    \n    Answer the user\x27s question based only on the data provided.\n  ".toList

/--
Lines 228-250 of `answerQuestion`: `history[history.length - 1].text` is read
first, then the prompt template is filled in with the FHIR data, the earlier
turns `history.slice(0, -1)` joined sender-labelled by newlines, and the user
question.  Indexing one past the end of an empty history yields `undefined`,
so the `.text` access throws a `TypeError`; that failure case is `none`.
-/
def answerQuestionPrompt (fhirJson : List Char) (history : List ChatMessage) :
    Option (List Char) :=
  match history.getLast? with
  | none => none
  | some lastMsg =>
    some (answerPromptHead ++ fhirJson ++ answerPromptMid ++
      joinTurns history.dropLast ++ answerPromptQ ++ lastMsg.text ++ answerPromptTail)

/-- The `catch` classification of `answerQuestion` (lines 254-257). -/
def answerCatch : JsError → JsError
  | .corsError => .corsError
  | .serverError m => .serverError m
  | e => .jsError ("The AI model failed to answer the question. Details: ".toList ++ jsMessage e)

/-- `answerQuestion` (geminiService.ts lines 227-258).  The last-element read
happens outside the `try`, so its `TypeError` propagates unclassified. -/
def answerQuestion (fhirJson : List Char) (history : List ChatMessage)
    (outcome : FetchOutcome) : Except JsError (List Char) :=
  match answerQuestionPrompt fhirJson history with
  | none => .error (.typeError "Cannot read properties of undefined (reading \x27text\x27)".toList)
  | some _prompt =>
    match callOllama outcome with
    | .ok v => .ok v
    | .error e => .error (answerCatch e)

/-! ### The session state machine of `App.tsx`

Each `useState` hook becomes a field of `Session`; presentation-only state
(`activeTab`, `errorTab`, `copied`) is omitted because no modelled handler
reads it.  Each handler becomes a function of the pre-state and, where the
handler awaits a service call, of that call's settled result. -/

/-- `AppState` of types.ts. -/
inductive AppState : Type
  | idle | converting | converted | analyzing | saved | chatting | error
deriving DecidableEq, Repr

/-- State of the connection-test button. -/
inductive TestState : Type
  | idle | testing | success | failed
deriving DecidableEq, Repr

/-- The uploaded `File` value, as far as the handlers read it. -/
structure FileData : Type where
  name : List Char
  mimeType : List Char
deriving DecidableEq, Repr

/-- The component state of `App`. -/
structure Session : Type where
  appState : AppState
  /-- the `error` slot (`setError`) -/
  error : Option JsError
  /-- the `ollamaError` slot (`setOllamaError`); `true` when an
  `OllamaCorsError` is stored -/
  ollamaError : Bool
  file : Option FileData
  fhirJson : Option (List Char)
  /-- the stored analytics value; `generateAnalytics` returns `JSON.parse` of
  the cleaned model output, represented here by that JSON text -/
  analyticsData : Option (List Char)
  chatHistory : List ChatMessage
  isSaved : Bool
  testState : TestState
deriving DecidableEq, Repr

/-- `handleError` (App.tsx lines 51-62). -/
def handleError (st : Session) (err : JsError) : Session :=
  match err with
  | .corsError => { st with ollamaError := true, appState := .error }
  | .serverError m => { st with error := some (.serverError m), appState := .error }
  | e => { st with error := some e, appState := .error }

/-- The synchronous updates of `handleFileConvert` (App.tsx lines 66-72),
performed before the conversion is awaited. -/
def handleFileConvertStart (st : Session) (selectedFile : FileData) : Session :=
  { st with
    file := some selectedFile
    appState := .converting
    error := none
    ollamaError := false
    testState := .idle
    isSaved := false
    chatHistory := [] }

/-- `handleFileConvert` (App.tsx lines 64-85), given the settled result of
`convertToFhir`.  Line 78 re-validates the output with `JSON.parse` before
storing it. -/
def handleFileConvert (st : Session) (selectedFile : FileData)
    (result : Except JsError (List Char)) : Session :=
  let st1 := handleFileConvertStart st selectedFile
  match result with
  | .ok generatedJson =>
    if jsonOk generatedJson then
      { st1 with fhirJson := some generatedJson, appState := .converted }
    else
      handleError st1 (.jsError jsonSyntaxErrorMsg)
  | .error e => handleError st1 e

/-- The greeting seeded into the chat by `handleSaveToFhir` (lines 96-99). -/
def initialBotMessage : ChatMessage :=
  ⟨.bot, "Data has been processed and is ready for analysis. I am an AI assistant ready to answer questions about this FHIR data. What would you like to know?".toList⟩

/-- `handleSaveToFhir` (App.tsx lines 87-104), given the settled result of
`generateAnalytics`. -/
def handleSaveToFhir (st : Session) (result : Except JsError (List Char)) : Session :=
  match st.fhirJson with
  | none => st
  | some _ =>
    let st1 := { st with appState := AppState.analyzing }
    match result with
    | .ok data =>
      { st1 with
        analyticsData := some data
        isSaved := true
        appState := .saved
        chatHistory := [initialBotMessage] }
    | .error e => handleError st1 e

/-- `handleSendMessage` (App.tsx lines 106-126), given the settled result of
`answerQuestion`. -/
def handleSendMessage (st : Session) (message : List Char)
    (result : Except JsError (List Char)) : Session :=
  match st.fhirJson with
  | none => st
  | some _ =>
    let userMessage : ChatMessage := ⟨.user, message⟩
    let st1 := { st with
      chatHistory := st.chatHistory ++ [userMessage]
      appState := AppState.chatting }
    match result with
    | .ok botResponseText =>
      { st1 with
        chatHistory := st1.chatHistory ++ [⟨.bot, botResponseText⟩]
        appState := .saved }
    | .error e =>
      { st1 with
        chatHistory := st1.chatHistory ++ [⟨.bot, jsMessage e⟩]
        appState := .saved }

/-! ### Basic lemmas -/

theorem firstIdx_eq_neg_one_of_not_mem {c : Char} {s : List Char} (h : c ∉ s) :
    firstIdx c s = -1 := by
  induction s with
  | nil => rfl
  | cons d rest ih =>
    have hdc : d ≠ c := fun hdc => h (hdc ▸ List.mem_cons_self d rest)
    have hrest : c ∉ rest := fun hm => h (List.mem_cons_of_mem d hm)
    simp [firstIdx, hdc, ih hrest]

theorem fencedCapture_eq_none_of_not_sub {s : List Char}
    (h : containsSub fenceOpen s = false) : fencedCapture s = none := by
  induction s with
  | nil => rfl
  | cons c rest ih =>
    rw [containsSub, Bool.or_eq_false_iff] at h
    rw [fencedCapture, if_neg (by simp [h.1])]
    exact ih h.2

/-! ### Suffix structure of the JSON recognisers

Every recogniser consumes a prefix of its input and returns the rest; the
object/member recognisers in particular return exactly the characters that
follow a consumed `}` (resp. `]` for arrays).  These facts drive the analysis
of `cleanJsonOutput` on well-formed JSON text. -/

theorem skipWs_suffix (s : List Char) : skipWs s <:+ s :=
  List.dropWhile_suffix isJsonWs

theorem skipWs_decomp (s : List Char) :
    ∃ w, s = w ++ skipWs s ∧ ∀ c ∈ w, isJsonWs c = true :=
  ⟨s.takeWhile isJsonWs, (List.takeWhile_append_dropWhile isJsonWs s).symm,
    fun _ hc => List.mem_takeWhile_imp hc⟩

theorem skipWs_eq_nil_all_ws {s : List Char} (h : skipWs s = []) :
    ∀ c ∈ s, isJsonWs c = true :=
  List.dropWhile_eq_nil_iff.mp h

theorem expectChars_suffix {p s r : List Char} (h : expectChars p s = some r) :
    r <:+ s := by
  rw [expectChars] at h
  split at h
  · cases h
    exact List.drop_suffix _ _
  · exact Option.noConfusion h

theorem pDigits1_suffix {s r : List Char} (h : pDigits1 s = some r) : r <:+ s := by
  unfold pDigits1 at h
  split at h
  · exact Option.noConfusion h
  · next c t =>
    split at h
    · cases h
      exact (List.dropWhile_suffix _).trans (List.suffix_cons c t)
    · exact Option.noConfusion h

theorem pExpPart_suffix {s r : List Char} (h : pExpPart s = some r) : r <:+ s := by
  unfold pExpPart at h
  split at h
  · cases h
    exact List.nil_suffix
  · next c t =>
    split at h
    · split at h
      · exact Option.noConfusion h
      · next c2 r2 =>
        split at h
        · exact ((pDigits1_suffix h).trans (List.suffix_cons c2 r2)).trans
            (List.suffix_cons c (c2 :: r2))
        · exact (pDigits1_suffix h).trans (List.suffix_cons c (c2 :: r2))
    · cases h
      exact List.suffix_refl _

theorem pFracExp_suffix {s r : List Char} (h : pFracExp s = some r) : r <:+ s := by
  unfold pFracExp at h
  split at h
  · cases h
    exact List.nil_suffix
  · next c t =>
    split at h
    · split at h
      · next r2 hd =>
        exact ((pExpPart_suffix h).trans (pDigits1_suffix hd)).trans
          (List.suffix_cons c t)
      · exact Option.noConfusion h
    · exact pExpPart_suffix h

theorem pIntRest_suffix {s r : List Char} (h : pIntRest s = some r) : r <:+ s := by
  unfold pIntRest at h
  split at h
  · exact Option.noConfusion h
  · next c t =>
    split at h
    · exact (pFracExp_suffix h).trans (List.suffix_cons c t)
    · split at h
      · exact ((pFracExp_suffix h).trans (List.dropWhile_suffix _)).trans
          (List.suffix_cons c t)
      · exact Option.noConfusion h

theorem pNumber_suffix {s r : List Char} (h : pNumber s = some r) : r <:+ s := by
  unfold pNumber at h
  split at h
  · exact pIntRest_suffix h
  · next c t =>
    split at h
    · exact (pIntRest_suffix h).trans (List.suffix_cons c t)
    · exact pIntRest_suffix h

theorem suffix_cons_of {r t : List Char} (h : r <:+ t) (c : Char) : r <:+ c :: t :=
  h.trans (List.suffix_cons c t)

theorem pStringRest_suffix_aux :
    ∀ (n : Nat) (s : List Char), s.length ≤ n →
      ∀ r, pStringRest s = some r → r <:+ s := by
  intro n
  induction n with
  | zero =>
    intro s hs r h
    match s with
    | [] => exact Option.noConfusion h
    | c :: t => simp at hs
  | succ n ih =>
    intro s hs r h
    match s with
    | [] => exact Option.noConfusion h
    | c :: t =>
      unfold pStringRest at h
      split at h
      · cases h
        exact List.suffix_cons _ _
      · split at h
        · split at h
          · exact Option.noConfusion h
          · next e r2 =>
            split at h
            · have hr2 : r2.length ≤ n := by
                simp [List.length_cons] at hs
                omega
              exact suffix_cons_of (suffix_cons_of (ih r2 hr2 r h) e) c
            · split at h
              · split at h
                · next a b c2 d r3 =>
                  split at h
                  · have hr3 : r3.length ≤ n := by
                      simp [List.length_cons] at hs
                      omega
                    exact suffix_cons_of (suffix_cons_of (suffix_cons_of
                      (suffix_cons_of (suffix_cons_of (suffix_cons_of
                        (ih r3 hr3 r h) d) c2) b) a) e) c
                  · exact Option.noConfusion h
                · exact Option.noConfusion h
              · exact Option.noConfusion h
        · split at h
          · have ht : t.length ≤ n := by
              simp [List.length_cons] at hs
              omega
            exact suffix_cons_of (ih t ht r h) c
          · exact Option.noConfusion h

theorem pStringRest_suffix {s r : List Char} (h : pStringRest s = some r) :
    r <:+ s :=
  pStringRest_suffix_aux s.length s le_rfl r h

/-- The recognisers return suffixes of their input; moreover everything an
object (resp. array) recogniser consumed ends with the matching `}` (resp.
`]`), so the character immediately preceding the returned rest is that
closing bracket. -/
theorem parser_suffix_bundle (fuel : Nat) :
    (∀ s r, pValue fuel s = some r → r <:+ s) ∧
    (∀ s r, pObject fuel s = some r → ('}' :: r) <:+ s) ∧
    (∀ s r, pMember fuel s = some r → ('}' :: r) <:+ s) ∧
    (∀ s r, pArray fuel s = some r → (']' :: r) <:+ s) ∧
    (∀ s r, pElem fuel s = some r → (']' :: r) <:+ s) := by
  induction fuel with
  | zero =>
    refine ⟨?_, ?_, ?_, ?_, ?_⟩ <;> (intro s r h; exact Option.noConfusion h)
  | succ f ih =>
    obtain ⟨ihV, ihO, ihM, ihA, ihE⟩ := ih
    refine ⟨?_, ?_, ?_, ?_, ?_⟩
    · -- pValue
      intro s r h
      unfold pValue at h
      split at h
      · exact Option.noConfusion h
      · next c rest =>
        split at h
        · exact (((List.suffix_cons '\x7d' r).trans (ihO _ _ h)).trans
            (skipWs_suffix rest)).trans (List.suffix_cons c rest)
        · split at h
          · exact (((List.suffix_cons ']' r).trans (ihA _ _ h)).trans
              (skipWs_suffix rest)).trans (List.suffix_cons c rest)
          · split at h
            · exact (pStringRest_suffix h).trans (List.suffix_cons c rest)
            · split at h
              · exact (expectChars_suffix h).trans (List.suffix_cons c rest)
              · split at h
                · exact (expectChars_suffix h).trans (List.suffix_cons c rest)
                · split at h
                  · exact (expectChars_suffix h).trans (List.suffix_cons c rest)
                  · split at h
                    · exact pNumber_suffix h
                    · exact Option.noConfusion h
    · -- pObject
      intro s r h
      unfold pObject at h
      split at h
      · exact Option.noConfusion h
      · next c rest =>
        split at h
        · next hc =>
          cases h
          rw [hc]
        · exact ihM _ _ h
    · -- pMember
      intro s r h
      unfold pMember at h
      split at h
      · exact Option.noConfusion h
      · next c rest =>
        split at h
        · split at h
          · exact Option.noConfusion h
          · next r1 hps =>
            split at h
            · exact Option.noConfusion h
            · next c2 r2 hsk1 =>
              split at h
              · next hc2 =>
                split at h
                · exact Option.noConfusion h
                · next r3 hv =>
                  split at h
                  · exact Option.noConfusion h
                  · next c3 r4 hsk3 =>
                    have hchain : r3 <:+ rest :=
                      (((ihV _ _ hv).trans (skipWs_suffix r2)).trans
                        ((List.suffix_cons c2 r2).trans
                          (hsk1 ▸ skipWs_suffix r1))).trans
                        (pStringRest_suffix hps)
                    split at h
                    · next hc3 =>
                      cases h
                      have h34 : ('\x7d' :: r) <:+ r3 := by
                        rw [← hc3, ← hsk3]
                        exact skipWs_suffix r3
                      exact (h34.trans hchain).trans (List.suffix_cons c rest)
                    · split at h
                      · have hm : ('\x7d' :: r) <:+ r4 :=
                          (ihM _ _ h).trans (skipWs_suffix r4)
                        have h4 : r4 <:+ r3 :=
                          (List.suffix_cons c3 r4).trans (hsk3 ▸ skipWs_suffix r3)
                        exact ((hm.trans h4).trans hchain).trans
                          (List.suffix_cons c rest)
                      · exact Option.noConfusion h
              · exact Option.noConfusion h
        · exact Option.noConfusion h
    · -- pArray
      intro s r h
      unfold pArray at h
      split at h
      · exact Option.noConfusion h
      · next c rest =>
        split at h
        · next hc =>
          cases h
          rw [hc]
        · exact ihE _ _ h
    · -- pElem
      intro s r h
      unfold pElem at h
      split at h
      · exact Option.noConfusion h
      · next r1 hv =>
        split at h
        · exact Option.noConfusion h
        · next c2 r2 hsk =>
          have h12 : r2 <:+ s :=
            ((List.suffix_cons c2 r2).trans (hsk ▸ skipWs_suffix r1)).trans
              (ihV _ _ hv)
          split at h
          · next hc2 =>
            cases h
            rw [← hc2, ← hsk]
            exact (skipWs_suffix r1).trans (ihV _ _ hv)
          · split at h
            · exact ((ihE _ _ h).trans (skipWs_suffix r2)).trans h12
            · exact Option.noConfusion h

/-- Concrete session and file used to instantiate universally quantified
statements. -/
def demoFile : FileData := ⟨"note.txt".toList, "text/plain".toList⟩

/-- An idle session as created on first render. -/
def demoIdleSession : Session :=
  ⟨.idle, none, false, none, none, none, [], false, .idle⟩

/-- A session that has stored a converted record and its analytics. -/
def demoSavedSession : Session :=
  ⟨.saved, none, false, some demoFile, some "\x7b\x7d".toList,
    some "\x7b\x7d".toList, [initialBotMessage], true, .idle⟩

/-- A successfully parsed value whose text starts with `{` consists of that
brace, some middle characters and a closing `}`, followed by the rest. -/
theorem pValue_obj_shape {f : Nat} {z r : List Char}
    (h : pValue (f + 1) ('\x7b' :: z) = some r) :
    ∃ u, '\x7b' :: z = ('\x7b' :: u ++ ['\x7d']) ++ r := by
  unfold pValue at h
  dsimp only at h
  rw [if_pos rfl] at h
  obtain ⟨t, ht⟩ := (parser_suffix_bundle f).2.1 _ _ h
  obtain ⟨w, hw, _⟩ := skipWs_decomp z
  refine ⟨w ++ t, ?_⟩
  rw [hw, ← ht]
  simp [List.append_assoc]

/-- A successfully parsed value whose text starts with `[` consists of that
bracket, some middle characters and a closing `]`, followed by the rest. -/
theorem pValue_arr_shape {f : Nat} {z r : List Char}
    (h : pValue (f + 1) ('[' :: z) = some r) :
    ∃ u, '[' :: z = ('[' :: u ++ [']']) ++ r := by
  unfold pValue at h
  dsimp only at h
  rw [if_neg (by decide), if_pos rfl] at h
  obtain ⟨t, ht⟩ := (parser_suffix_bundle f).2.2.2.1 _ _ h
  obtain ⟨w, hw, _⟩ := skipWs_decomp z
  refine ⟨w ++ t, ?_⟩
  rw [hw, ← ht]
  simp [List.append_assoc]

/-! ### First/last index arithmetic -/

theorem firstIdx_neg_or_nonneg (c : Char) (s : List Char) :
    firstIdx c s = -1 ∨ 0 ≤ firstIdx c s := by
  induction s with
  | nil => left; rfl
  | cons d rest ih =>
    rw [firstIdx]
    split
    · right; omega
    · rcases ih with h | h
      · rw [if_pos h]; left; rfl
      · rw [if_neg (by omega)]; right; omega

theorem firstIdx_cons_self (c : Char) (rest : List Char) :
    firstIdx c (c :: rest) = 0 := by
  rw [firstIdx, if_pos rfl]

theorem firstIdx_append_not_mem {c : Char} {a : List Char} (h : c ∉ a)
    (b : List Char) :
    firstIdx c (a ++ b) =
      if firstIdx c b = -1 then -1 else (a.length : Int) + firstIdx c b := by
  induction a with
  | nil =>
    rw [List.nil_append, List.length_nil]
    split
    · assumption
    · omega
  | cons d rest ih =>
    have hd : d ≠ c := fun hdc => h (hdc ▸ List.mem_cons_self d rest)
    have hrest : c ∉ rest := fun hm => h (List.mem_cons_of_mem d hm)
    have h0 := firstIdx_neg_or_nonneg c b
    rw [List.cons_append, firstIdx, if_neg hd, ih hrest, List.length_cons]
    split_ifs <;> push_cast <;> omega

theorem lastIdx_neg_or_nonneg (c : Char) (s : List Char) :
    lastIdx c s = -1 ∨ 0 ≤ lastIdx c s := by
  induction s with
  | nil => left; rfl
  | cons d rest ih =>
    rw [lastIdx]
    rcases ih with h | h
    · rw [if_pos h]
      split
      · right; omega
      · left; rfl
    · rw [if_neg (by omega)]
      right; omega

theorem lastIdx_eq_neg_one_of_not_mem {c : Char} {s : List Char} (h : c ∉ s) :
    lastIdx c s = -1 := by
  induction s with
  | nil => rfl
  | cons d rest ih =>
    have hd : d ≠ c := fun hdc => h (hdc ▸ List.mem_cons_self d rest)
    have hrest : c ∉ rest := fun hm => h (List.mem_cons_of_mem d hm)
    rw [lastIdx, ih hrest, if_pos rfl, if_neg hd]

theorem lastIdx_lt_length (c : Char) (s : List Char) :
    lastIdx c s < (s.length : Int) := by
  induction s with
  | nil => simp [lastIdx]
  | cons d rest ih =>
    rw [lastIdx, List.length_cons]
    have h0 := lastIdx_neg_or_nonneg c rest
    split_ifs <;> push_cast <;> omega

theorem lastIdx_append (c : Char) (a b : List Char) :
    lastIdx c (a ++ b) =
      if lastIdx c b = -1 then lastIdx c a else (a.length : Int) + lastIdx c b := by
  induction a with
  | nil =>
    rw [List.nil_append, List.length_nil]
    split
    · next hb => rw [hb]; rfl
    · omega
  | cons d rest ih =>
    have h0 := lastIdx_neg_or_nonneg c b
    have h1 := lastIdx_neg_or_nonneg c rest
    rw [List.cons_append, lastIdx, ih, lastIdx, List.length_cons]
    split_ifs <;> push_cast <;> omega

theorem lastIdx_concat_self (c : Char) (u : List Char) :
    lastIdx c (u ++ [c]) = (u.length : Int) := by
  have h1 : lastIdx c [c] = 0 := by simp [lastIdx]
  rw [lastIdx_append, h1, if_neg (by omega)]
  omega

theorem jsSubstring_exact (a t b : List Char) :
    jsSubstring (a ++ t ++ b) (a.length : Int) ((a.length : Int) + t.length) = t := by
  have hlen : ((a ++ t ++ b).length : Int) = (a.length : Int) + t.length + b.length := by
    simp [List.length_append]
    omega
  have e1 : clampIdx (a ++ t ++ b) (a.length : Int) = a.length := by
    rw [clampIdx, hlen]
    omega
  have e2 : clampIdx (a ++ t ++ b) ((a.length : Int) + t.length) = a.length + t.length := by
    rw [clampIdx, hlen]
    omega
  rw [jsSubstring, e1, e2, Nat.max_eq_right (Nat.le_add_right _ _),
    Nat.min_eq_left (Nat.le_add_right _ _)]
  have htake : (a ++ t).length = a.length + t.length := by simp
  rw [List.take_left' htake, List.drop_left]

/-! ### Substring containment -/

theorem containsSub_of_isPrefixOf {p s : List Char} (h : p.isPrefixOf s = true) :
    containsSub p s = true := by
  cases s with
  | nil => exact h
  | cons c rest => simp [containsSub, h]

theorem containsSub_append_right {p b : List Char} (a : List Char)
    (h : containsSub p b = true) : containsSub p (a ++ b) = true := by
  induction a with
  | nil => exact h
  | cons c rest ih => simp [containsSub, ih]

theorem isPrefixOf_append_mono {p a : List Char} (b : List Char)
    (h : p.isPrefixOf a = true) : p.isPrefixOf (a ++ b) = true := by
  rw [List.isPrefixOf_iff_prefix] at h ⊢
  exact h.trans (List.prefix_append a b)

theorem containsSub_append_left {p a : List Char} (b : List Char)
    (h : containsSub p a = true) : containsSub p (a ++ b) = true := by
  induction a with
  | nil =>
    exact containsSub_of_isPrefixOf (isPrefixOf_append_mono b h)
  | cons c rest ih =>
    rw [containsSub, Bool.or_eq_true] at h
    rcases h with h | h
    · rw [List.cons_append]
      exact containsSub_of_isPrefixOf (isPrefixOf_append_mono b h)
    · rw [List.cons_append, containsSub, ih h, Bool.or_true]

theorem containsSub_middle_false {p w₁ t w₂ : List Char}
    (h : containsSub p (w₁ ++ t ++ w₂) = false) : containsSub p t = false := by
  by_contra hc
  rw [Bool.not_eq_false] at hc
  rw [containsSub_append_left w₂ (containsSub_append_right w₁ hc)] at h
  exact Bool.noConfusion h

/-! ### Behaviour of the bracket fallback on exact bracketed text -/

theorem isJsonWs_not_bracket {c : Char} (hc : isJsonWs c = true) :
    c ≠ '\x7b' ∧ c ≠ '[' ∧ c ≠ '\x7d' ∧ c ≠ ']' := by
  have h4 : c = ' ' ∨ c = '\t' ∨ c = '\n' ∨ c = '\r' := by
    rw [isJsonWs] at hc
    simp at hc
    tauto
  rcases h4 with h | h | h | h <;> subst h <;>
    exact ⟨by decide, by decide, by decide, by decide⟩

/-- Evaluation of `bracketExtract` once its index computations are known not
to hit the error branches. -/
theorem bracketExtract_eq_ok {rawJson : List Char}
    (hnot : ¬(firstIdx '\x7b' rawJson = -1 ∧ firstIdx '[' rawJson = -1))
    (hstart : (if firstIdx '\x7b' rawJson = -1 then firstIdx '[' rawJson
        else if firstIdx '[' rawJson = -1 then firstIdx '\x7b' rawJson
        else min (firstIdx '\x7b' rawJson) (firstIdx '[' rawJson)) ≠ -1)
    (hend : max (lastIdx '\x7d' rawJson) (lastIdx ']' rawJson) ≠ -1) :
    bracketExtract rawJson = .ok (jsSubstring rawJson
      (if firstIdx '\x7b' rawJson = -1 then firstIdx '[' rawJson
        else if firstIdx '[' rawJson = -1 then firstIdx '\x7b' rawJson
        else min (firstIdx '\x7b' rawJson) (firstIdx '[' rawJson))
      (max (lastIdx '\x7d' rawJson) (lastIdx ']' rawJson) + 1)) := by
  rw [bracketExtract]
  rw [if_neg hnot, if_neg (by push_neg; exact ⟨hstart, hend⟩)]

/-- On input of the form `whitespace ++ bracketed-text ++ whitespace`, where
the bracketed text opens with `{` or `[` and closes with the matching
bracket, the fallback extractor of `cleanJsonOutput` returns exactly the
bracketed text. -/
theorem bracketExtract_exact (w₁ u w₂ : List Char) (b₁ b₂ : Char)
    (hb : (b₁ = '\x7b' ∧ b₂ = '\x7d') ∨ (b₁ = '[' ∧ b₂ = ']'))
    (hw₁ : ∀ c ∈ w₁, isJsonWs c = true) (hw₂ : ∀ c ∈ w₂, isJsonWs c = true) :
    bracketExtract (w₁ ++ (b₁ :: u ++ [b₂]) ++ w₂) = .ok (b₁ :: u ++ [b₂]) := by
  have hw₁o : '\x7b' ∉ w₁ := fun hm => ((isJsonWs_not_bracket (hw₁ _ hm)).1) rfl
  have hw₁s : '[' ∉ w₁ := fun hm => ((isJsonWs_not_bracket (hw₁ _ hm)).2.1) rfl
  have hw₂c : '\x7d' ∉ w₂ := fun hm => ((isJsonWs_not_bracket (hw₂ _ hm)).2.2.1) rfl
  have hw₂e : ']' ∉ w₂ := fun hm => ((isJsonWs_not_bracket (hw₂ _ hm)).2.2.2) rfl
  -- the first index of the opening bracket is the length of the leading run
  have hfMain : firstIdx b₁ (w₁ ++ (b₁ :: u ++ [b₂]) ++ w₂) = (w₁.length : Int) := by
    have hnm : b₁ ∉ w₁ := by
      rcases hb with ⟨h1, _⟩ | ⟨h1, _⟩ <;> rw [h1] <;> assumption
    have hshape : w₁ ++ (b₁ :: u ++ [b₂]) ++ w₂ = w₁ ++ (b₁ :: (u ++ b₂ :: w₂)) := by
      simp [List.append_assoc]
    rw [hshape, firstIdx_append_not_mem hnm, firstIdx_cons_self, if_neg (by omega)]
    omega
  -- the first index of the other opening bracket is `-1` or at least that length
  have hfOther : ∀ d : Char, d ∉ w₁ →
      firstIdx d (w₁ ++ (b₁ :: u ++ [b₂]) ++ w₂) = -1 ∨
      (w₁.length : Int) ≤ firstIdx d (w₁ ++ (b₁ :: u ++ [b₂]) ++ w₂) := by
    intro d hnm
    rw [List.append_assoc, firstIdx_append_not_mem hnm]
    rcases eq_or_ne (firstIdx d (b₁ :: u ++ [b₂] ++ w₂)) (-1) with he | he
    · rw [if_pos he]; left; rfl
    · rw [if_neg he]
      right
      have := (firstIdx_neg_or_nonneg d (b₁ :: u ++ [b₂] ++ w₂)).resolve_left he
      omega
  -- the last index of the closing bracket
  have hlMain : lastIdx b₂ (w₁ ++ (b₁ :: u ++ [b₂]) ++ w₂) =
      (w₁.length : Int) + u.length + 1 := by
    have hnm : b₂ ∉ w₂ := by
      rcases hb with ⟨_, h2⟩ | ⟨_, h2⟩ <;> rw [h2] <;> assumption
    have heq : w₁ ++ (b₁ :: u ++ [b₂]) = (w₁ ++ b₁ :: u) ++ [b₂] := by
      simp [List.append_assoc]
    rw [lastIdx_append, if_pos (lastIdx_eq_neg_one_of_not_mem hnm), heq,
      lastIdx_concat_self]
    simp
    omega
  -- any closing bracket's last index is bounded by the main one
  have hlOther : ∀ d : Char, d ∉ w₂ →
      lastIdx d (w₁ ++ (b₁ :: u ++ [b₂]) ++ w₂) ≤ (w₁.length : Int) + u.length + 1 := by
    intro d hnm
    rw [lastIdx_append, if_pos (lastIdx_eq_neg_one_of_not_mem hnm)]
    have hlt := lastIdx_lt_length d (w₁ ++ (b₁ :: u ++ [b₂]))
    have hlen : ((w₁ ++ (b₁ :: u ++ [b₂])).length : Int) =
        (w₁.length : Int) + u.length + 2 := by
      simp [List.length_append]
      omega
    omega
  have hsub : jsSubstring (w₁ ++ (b₁ :: u ++ [b₂]) ++ w₂) (w₁.length : Int)
      ((w₁.length : Int) + ((u.length : Int) + 1 + 1)) = b₁ :: u ++ [b₂] := by
    have hx := jsSubstring_exact w₁ (b₁ :: u ++ [b₂]) w₂
    have hl : (((b₁ :: u ++ [b₂]).length : Nat) : Int) = (u.length : Int) + 1 + 1 := by
      simp
    rw [hl] at hx
    exact hx
  rcases hb with ⟨h1, h2⟩ | ⟨h1, h2⟩ <;> subst h1 <;> subst h2
  · -- object case
    have hfS := hfOther '[' hw₁s
    have hlS := hlOther ']' hw₂e
    have hw0 : (0 : Int) ≤ (w₁.length : Int) := by omega
    have hstart : (if firstIdx '\x7b' (w₁ ++ ('\x7b' :: u ++ ['\x7d']) ++ w₂) = -1
        then firstIdx '[' (w₁ ++ ('\x7b' :: u ++ ['\x7d']) ++ w₂)
        else if firstIdx '[' (w₁ ++ ('\x7b' :: u ++ ['\x7d']) ++ w₂) = -1
        then firstIdx '\x7b' (w₁ ++ ('\x7b' :: u ++ ['\x7d']) ++ w₂)
        else min (firstIdx '\x7b' (w₁ ++ ('\x7b' :: u ++ ['\x7d']) ++ w₂))
          (firstIdx '[' (w₁ ++ ('\x7b' :: u ++ ['\x7d']) ++ w₂))) = (w₁.length : Int) := by
      rw [hfMain]
      rcases hfS with h | h
      · rw [if_neg (by omega), if_pos h]
      · rw [if_neg (by omega), if_neg (by omega), min_eq_left h]
    have hendEq : max (lastIdx '\x7d' (w₁ ++ ('\x7b' :: u ++ ['\x7d']) ++ w₂))
        (lastIdx ']' (w₁ ++ ('\x7b' :: u ++ ['\x7d']) ++ w₂)) =
        (w₁.length : Int) + u.length + 1 := by
      rw [hlMain]
      exact max_eq_left hlS
    rw [bracketExtract_eq_ok (by rw [hfMain]; push_neg; intro hc; omega)
      (by rw [hstart]; omega) (by rw [hendEq]; omega)]
    rw [hstart, hendEq,
      show (w₁.length : Int) + u.length + 1 + 1 =
        (w₁.length : Int) + ((u.length : Int) + 1 + 1) from by omega, hsub]
  · -- array case
    have hfB := hfOther '\x7b' hw₁o
    have hlB := hlOther '\x7d' hw₂c
    have hw0 : (0 : Int) ≤ (w₁.length : Int) := by omega
    have hstart : (if firstIdx '\x7b' (w₁ ++ ('[' :: u ++ [']']) ++ w₂) = -1
        then firstIdx '[' (w₁ ++ ('[' :: u ++ [']']) ++ w₂)
        else if firstIdx '[' (w₁ ++ ('[' :: u ++ [']']) ++ w₂) = -1
        then firstIdx '\x7b' (w₁ ++ ('[' :: u ++ [']']) ++ w₂)
        else min (firstIdx '\x7b' (w₁ ++ ('[' :: u ++ [']']) ++ w₂))
          (firstIdx '[' (w₁ ++ ('[' :: u ++ [']']) ++ w₂))) = (w₁.length : Int) := by
      rw [hfMain]
      rcases hfB with h | h
      · rw [if_pos h]
      · rw [if_neg (by omega), if_neg (by omega), min_eq_right h]
    have hendEq : max (lastIdx '\x7d' (w₁ ++ ('[' :: u ++ [']']) ++ w₂))
        (lastIdx ']' (w₁ ++ ('[' :: u ++ [']']) ++ w₂)) =
        (w₁.length : Int) + u.length + 1 := by
      rw [hlMain]
      exact max_eq_right hlB
    rw [bracketExtract_eq_ok (by rw [hfMain]; push_neg; intro hc; omega)
      (by rw [hstart]; omega) (by rw [hendEq]; omega)]
    rw [hstart, hendEq,
      show (w₁.length : Int) + u.length + 1 + 1 =
        (w₁.length : Int) + ((u.length : Int) + 1 + 1) from by omega, hsub]

/-- A string accepted by `JSON.parse` whose top-level value is an object or
array decomposes as whitespace, a bracket-delimited value text, and
whitespace. -/
theorem jsonOk_bracket_decomp {s : List Char}
    (hjson : jsonOk s = true) (hbr : startsWithBracket s = true) :
    ∃ w₁ u w₂ b₁ b₂,
      ((b₁ = '\x7b' ∧ b₂ = '\x7d') ∨ (b₁ = '[' ∧ b₂ = ']')) ∧
      s = w₁ ++ (b₁ :: u ++ [b₂]) ++ w₂ ∧
      (∀ c ∈ w₁, isJsonWs c = true) ∧ (∀ c ∈ w₂, isJsonWs c = true) := by
  rw [jsonOk] at hjson
  rw [startsWithBracket] at hbr
  obtain ⟨w, hw, hwws⟩ := skipWs_decomp s
  cases hsk : skipWs s with
  | nil => rw [hsk] at hbr; exact Bool.noConfusion hbr
  | cons c z =>
    rw [hsk] at hbr hjson
    cases hpv : pValue (3 * s.length + 4) (c :: z) with
    | none => rw [hpv] at hjson; exact Bool.noConfusion hjson
    | some rest =>
      rw [hpv] at hjson
      have hrest : skipWs rest = [] := by
        simpa [List.isEmpty_iff] using hjson
      have hwr : ∀ d ∈ rest, isJsonWs d = true := skipWs_eq_nil_all_ws hrest
      rw [show 3 * s.length + 4 = (3 * s.length + 3) + 1 from rfl] at hpv
      rw [Bool.or_eq_true] at hbr
      rcases hbr with hc | hc
      · have hc' : c = '\x7b' := by simpa using hc
        subst hc'
        obtain ⟨u, hu⟩ := pValue_obj_shape hpv
        refine ⟨w, u, rest, '\x7b', '\x7d', Or.inl ⟨rfl, rfl⟩, ?_, hwws, hwr⟩
        rw [hw, hsk, hu]
        simp [List.append_assoc]
      · have hc' : c = '[' := by simpa using hc
        subst hc'
        obtain ⟨u, hu⟩ := pValue_arr_shape hpv
        refine ⟨w, u, rest, '[', ']', Or.inr ⟨rfl, rfl⟩, ?_, hwws, hwr⟩
        rw [hw, hsk, hu]
        simp [List.append_assoc]

/-! ### Claims -/

/-- C1: the spec's conversion scenario — the gateway POST succeeds with
status 2xx and the body's `response` field is
`` ```json\n{"resourceType":"Bundle"}\n``` `` — is supposed to make `convert`
return exactly `{"resourceType":"Bundle"}`.  The code as written instead
throws `OllamaCorsError` on every successful response, because line 105 calls
`.trim()` on the `Response` object (a `TypeError`, reclassified as a
connection failure).  With the body handling repaired as the design notes
intend, the pipeline returns exactly the claimed string. -/
theorem convert_fenced_scenario_defect :
    convertToFhir (.success ⟨true, 200, "OK".toList,
        some "```json\n\x7b\"resourceType\":\"Bundle\"\x7d\n```".toList, none⟩) =
      .error .corsError ∧
    convertToFhirFixed (.success ⟨true, 200, "OK".toList,
        some "```json\n\x7b\"resourceType\":\"Bundle\"\x7d\n```".toList, none⟩) =
      .ok "\x7b\"resourceType\":\"Bundle\"\x7d".toList := by
  exact ⟨rfl, by decide⟩

/-- C2: on a gateway invocation whose HTTP call completes with a success
status and a well-formed body, `callOllama` is supposed to return the body's
response text verbatim.  As written it never returns at all: line 105's
`await response?.trim()` raises a `TypeError` that becomes `OllamaCorsError`.
With the intended body handling the response text is returned. -/
theorem callOllama_success_defect :
    callOllama (.success ⟨true, 200, "OK".toList, some "hello".toList, none⟩) =
      .error .corsError ∧
    callOllamaFixed (.success ⟨true, 200, "OK".toList, some "hello".toList, none⟩) =
      .ok "hello".toList := by
  exact ⟨rfl, by decide⟩

/-- C3: a connection-level failure of the network call makes `convert` fail
with the TransportUnreachable classification (`OllamaCorsError`), and the
session moves to the Error phase with that classification stored in the
`ollamaError` slot; a non-success HTTP status instead yields ServerFault
(`OllamaServerError`) carrying the status text. -/
theorem convert_failure_classification (st : Session) (f : FileData)
    (r : FetchResponse) (hok : r.ok = false) :
    convertToFhir .failure = .error .corsError ∧
    (handleFileConvert st f (.error .corsError)).appState = .error ∧
    (handleFileConvert st f (.error .corsError)).ollamaError = true ∧
    convertToFhir (.success r) = .error (.serverError (statusLine r)) := by
  refine ⟨rfl, rfl, rfl, ?_⟩
  simp [convertToFhir, callOllama, callOllamaTry, hok, callOllamaCatch,
    convertPost, convertCatch]

theorem convert_failure_classification_witness :
    convertToFhir .failure = .error .corsError ∧
    (handleFileConvert demoIdleSession demoFile (.error .corsError)).appState = .error ∧
    (handleFileConvert demoIdleSession demoFile (.error .corsError)).ollamaError = true ∧
    convertToFhir (.success ⟨false, 500, "Internal Server Error".toList, none, none⟩) =
      .error (.serverError (statusLine ⟨false, 500, "Internal Server Error".toList, none, none⟩)) :=
  convert_failure_classification demoIdleSession demoFile
    ⟨false, 500, "Internal Server Error".toList, none, none⟩ rfl

/-- C4: whenever the post-gateway stage of `convert` (extraction, then
`JSON.parse` validation) returns a string, that string parses as JSON; every
failure is delivered as a thrown classified error, so unparsable text is
never returned silently. -/
theorem convertPost_ok_is_json (gw : Except JsError (List Char)) (s : List Char)
    (h : convertPost gw = .ok s) : jsonOk s = true := by
  unfold convertPost at h
  split at h
  · exact Except.noConfusion h
  · split at h
    · exact Except.noConfusion h
    · split at h
      · cases h
        assumption
      · exact Except.noConfusion h

theorem convertPost_ok_is_json_witness :
    jsonOk ("\x7b\"a\":1\x7d".toList) = true :=
  convertPost_ok_is_json (Except.ok ("\x7b\"a\":1\x7d".toList))
    ("\x7b\"a\":1\x7d".toList) (by decide)

/-- C5: when answering a chat turn fails with any error, the session phase
returns to Saved (never Error) and exactly one assistant-authored message —
carrying the user-facing error text — is appended after the user's message. -/
theorem chat_failure_scoped (st : Session) (msg : List Char) (e : JsError)
    (hfhir : st.fhirJson.isSome = true) :
    (handleSendMessage st msg (.error e)).appState = .saved ∧
    (handleSendMessage st msg (.error e)).chatHistory =
      st.chatHistory ++ [⟨.user, msg⟩, ⟨.bot, jsMessage e⟩] := by
  obtain ⟨f, hf⟩ := Option.isSome_iff_exists.mp hfhir
  rw [handleSendMessage, hf]
  exact ⟨rfl, by simp⟩

theorem chat_failure_scoped_witness :
    (handleSendMessage demoSavedSession "hi".toList (.error .corsError)).appState = .saved ∧
    (handleSendMessage demoSavedSession "hi".toList (.error .corsError)).chatHistory =
      demoSavedSession.chatHistory ++
        [⟨.user, "hi".toList⟩, ⟨.bot, jsMessage .corsError⟩] :=
  chat_failure_scoped demoSavedSession "hi".toList .corsError rfl

/-- C6 counterexample: the file-selected transition out of Idle does NOT
clear the prior structured record or the prior analytics summary — starting
from a session holding both, they are still present after the synchronous
updates that precede the new conversion. -/
theorem fileSelect_keeps_record_cex :
    (handleFileConvertStart
        ⟨.converted, none, false, some demoFile, some "\x7b\x7d".toList,
          some "[1]".toList, [], false, .idle⟩ demoFile).fhirJson ≠ none ∧
    (handleFileConvertStart
        ⟨.converted, none, false, some demoFile, some "\x7b\x7d".toList,
          some "[1]".toList, [], false, .idle⟩ demoFile).analyticsData ≠ none := by
  exact ⟨by decide, by decide⟩

/-- C6 (amended): the file-selected transition sets the phase to Converting
and clears the chat history, both stored-error slots, the saved flag and the
connection-test state, but leaves the prior structured record and analytics
summary in place (the record is only replaced on conversion success). -/
theorem fileSelect_transition_effects (st : Session) (f : FileData) :
    (handleFileConvertStart st f).appState = .converting ∧
    (handleFileConvertStart st f).chatHistory = [] ∧
    (handleFileConvertStart st f).error = none ∧
    (handleFileConvertStart st f).ollamaError = false ∧
    (handleFileConvertStart st f).isSaved = false ∧
    (handleFileConvertStart st f).testState = .idle ∧
    (handleFileConvertStart st f).file = some f ∧
    (handleFileConvertStart st f).fhirJson = st.fhirJson ∧
    (handleFileConvertStart st f).analyticsData = st.analyticsData :=
  ⟨rfl, rfl, rfl, rfl, rfl, rfl, rfl, rfl, rfl⟩

/-- C7 counterexample: extraction is NOT idempotent on all already-clean JSON
text.  The string `{"a":"```json 1 ```"}` parses as JSON, yet the first
application of the extraction returns the fenced capture `1` (the regex fires
inside the JSON string literal), and a second application fails because `1`
holds no fence and no bracket. -/
theorem cleanJson_not_idempotent_cex :
    jsonOk "\x7b\"a\":\"```json 1 ```\"\x7d".toList = true ∧
    cleanJsonOutput "\x7b\"a\":\"```json 1 ```\"\x7d".toList = .ok ['1'] ∧
    cleanJsonOutput ['1'] = .error (.jsError noJsonFoundMsg) := by
  exact ⟨by decide, by decide, by decide⟩

/-- C7 (amended): extraction is idempotent on already-clean JSON text that
contains no `` ```json `` fence and whose top-level value is an object or
array: one application returns the bracket-delimited value text, and a second
application returns it unchanged. -/
theorem cleanJson_idem_on_clean (s : List Char)
    (hjson : jsonOk s = true) (hbr : startsWithBracket s = true)
    (hfence : containsSub fenceOpen s = false) :
    ∃ t, cleanJsonOutput s = .ok t ∧ cleanJsonOutput t = .ok t := by
  obtain ⟨w₁, u, w₂, b₁, b₂, hb, hs, hw₁, hw₂⟩ := jsonOk_bracket_decomp hjson hbr
  refine ⟨b₁ :: u ++ [b₂], ?_, ?_⟩
  · unfold cleanJsonOutput
    rw [fencedCapture_eq_none_of_not_sub hfence]
    dsimp only
    rw [hs]
    exact bracketExtract_exact w₁ u w₂ b₁ b₂ hb hw₁ hw₂
  · have hft : containsSub fenceOpen (b₁ :: u ++ [b₂]) = false := by
      rw [hs] at hfence
      exact containsSub_middle_false hfence
    unfold cleanJsonOutput
    rw [fencedCapture_eq_none_of_not_sub hft]
    dsimp only
    have hx := bracketExtract_exact [] u [] b₁ b₂ hb (by simp) (by simp)
    simpa using hx

theorem cleanJson_idem_on_clean_witness :
    ∃ t, cleanJsonOutput "\x7b\"a\":1\x7d".toList = .ok t ∧
      cleanJsonOutput t = .ok t :=
  cleanJson_idem_on_clean ("\x7b\"a\":1\x7d".toList) (by decide) (by decide) (by decide)

/-- C8 counterexample: an input with no opening bracket at all, but carrying
a fenced `` ```json `` block with nonempty capture, makes the extraction
return the captured text instead of failing with MalformedOutput. -/
theorem cleanJson_fenced_nobracket_cex :
    ('{' ∉ "```json x ```".toList ∧ '[' ∉ "```json x ```".toList) ∧
    cleanJsonOutput "```json x ```".toList = .ok ['x'] := by
  exact ⟨by decide, by decide⟩

/-- C8 (amended): for every input string that contains no opening bracket
(`{` or `[`) and no `` ```json `` fence, the extraction fails with the
MalformedOutput error ("No JSON object found in the AI response."); it never
returns an empty or truncated string for such input. -/
theorem cleanJson_nobracket_malformed (s : List Char)
    (hfence : containsSub fenceOpen s = false)
    (hbrace : '{' ∉ s) (hsquare : '[' ∉ s) :
    cleanJsonOutput s = .error (.jsError noJsonFoundMsg) := by
  rw [cleanJsonOutput, fencedCapture_eq_none_of_not_sub hfence, bracketExtract]
  rw [if_pos ⟨firstIdx_eq_neg_one_of_not_mem hbrace,
    firstIdx_eq_neg_one_of_not_mem hsquare⟩]

theorem cleanJson_nobracket_malformed_witness :
    cleanJsonOutput "hello".toList = .error (.jsError noJsonFoundMsg) :=
  cleanJson_nobracket_malformed ("hello".toList) (by decide) (by decide) (by decide)

/-- C9: when analysis succeeds, the session transitions to Saved, the
analytics value is stored, and the chat history is seeded with exactly one
assistant-authored greeting. -/
theorem save_success_effects (st : Session) (fhir data : List Char)
    (hf : st.fhirJson = some fhir) :
    (handleSaveToFhir st (.ok data)).appState = .saved ∧
    (handleSaveToFhir st (.ok data)).analyticsData = some data ∧
    (handleSaveToFhir st (.ok data)).chatHistory = [initialBotMessage] ∧
    initialBotMessage.sender = .bot ∧
    (handleSaveToFhir st (.ok data)).isSaved = true := by
  rw [handleSaveToFhir, hf]
  exact ⟨rfl, rfl, rfl, rfl, rfl⟩

theorem save_success_effects_witness :
    (handleSaveToFhir demoSavedSession (.ok "[2]".toList)).appState = .saved ∧
    (handleSaveToFhir demoSavedSession (.ok "[2]".toList)).analyticsData =
      some "[2]".toList ∧
    (handleSaveToFhir demoSavedSession (.ok "[2]".toList)).chatHistory =
      [initialBotMessage] ∧
    initialBotMessage.sender = .bot ∧
    (handleSaveToFhir demoSavedSession (.ok "[2]".toList)).isSaved = true :=
  save_success_effects demoSavedSession ("\x7b\x7d".toList) ("[2]".toList) rfl

/-- C10: the question-answering prompt builder reads the last element of the
chat history, which is out of bounds for an empty history; on the history the
caller actually passes — the prior turns followed by the user's new question —
the access succeeds and the prompt embeds all earlier turns oldest to newest,
sender-labelled, followed by the question. -/
theorem answerPrompt_history_access (fhir message : List Char)
    (prior : List ChatMessage) :
    answerQuestionPrompt fhir [] = none ∧
    (prior ++ [(⟨.user, message⟩ : ChatMessage)]).getLast? =
      some (⟨.user, message⟩ : ChatMessage) ∧
    answerQuestionPrompt fhir (prior ++ [(⟨.user, message⟩ : ChatMessage)]) =
      some (answerPromptHead ++ fhir ++ answerPromptMid ++ joinTurns prior ++
        answerPromptQ ++ message ++ answerPromptTail) := by
  constructor
  · rfl
  constructor
  · exact List.getLast?_concat prior
  · rw [answerQuestionPrompt, List.getLast?_concat, List.dropLast_concat]

end FhirAnalyst
